import Mathlib

/-!
# upside-down-scroll: a verification development for `script.js`

A shallow embedding of the scripting logic of the page (`src/stranger things website/script.js`)
and theorems about it.  Every definition names the source function it embeds.

Conventions of the embedding

* A JavaScript string is a Lean `String` (a sequence of code points; `for (const char of msg)`
  iterates code points).
* `classList.add(x)` / `classList.remove(x)` on an element is a Boolean flag per class name.
* A Number is the rational value of a double.  In `randomFlicker`, where rounding decides
  the outcome, the result of every arithmetic operation is rounded to the nearest double
  (`roundDouble`).  The scroll listeners are embedded over exact rationals, and the times of
  the timeline are sums of the integer delays of `CONFIG`.
* `Math.random()` and the order left by `sort` with a random comparator are inputs (draws).
* Asynchronous code is embedded on the ideal timeline on which `sleep(ms)` and
  `setTimeout(f, ms)` elapse exactly `ms`: each call is recorded with the time at which it runs.
-/

namespace StrangerThings

/-! ## Section trigger dispatcher (`handleSectionEnter`, `handleSectionLeave`) -/

/-- The one-shot flags of `state` together with the `active` class of the `.glitch-text`
element of the upside-down section. -/
structure TriggerState where
  alphabetTriggered : Bool
  portalOpened : Bool
  creditsShown : Bool
  glitchTextActive : Bool
  deriving DecidableEq, Repr

/-- The flags of `const state = { ... }` at page load. -/
def TriggerState.initial : TriggerState :=
  { alphabetTriggered := false, portalOpened := false, creditsShown := false,
    glitchTextActive := false }

/-- The three effects a section entry can start. -/
inductive Effect
  | startAlphabetAnimation
  | openPortal
  | showCredits
  deriving DecidableEq, Repr

/-- `handleSectionEnter(section)`: the `switch` on `section.id`; returns the new state and the
effects called, in call order. -/
def handleSectionEnter (s : TriggerState) (id : String) : TriggerState × List Effect :=
  if id = "alphabetSection" then
    if !s.alphabetTriggered then
      ({ s with alphabetTriggered := true }, [Effect.startAlphabetAnimation])
    else (s, [])
  else if id = "upsideDownSection" then
    ({ s with glitchTextActive := true }, [])
  else if id = "portalSection" then
    if !s.portalOpened then
      ({ s with portalOpened := true }, [Effect.openPortal])
    else (s, [])
  else if id = "endingSection" then
    if !s.creditsShown then
      ({ s with creditsShown := true }, [Effect.showCredits])
    else (s, [])
  else (s, [])

/-- `handleSectionLeave(section)`. -/
def handleSectionLeave (s : TriggerState) (id : String) : TriggerState × List Effect :=
  if id = "upsideDownSection" then
    ({ s with glitchTextActive := false }, [])
  else (s, [])

/-- One entry delivered to the section observer callback: `isIntersecting` and `target.id`. -/
structure SectionEvent where
  isIntersecting : Bool
  id : String
  deriving DecidableEq, Repr

/-- The body of the `sectionObserver` callback for one entry. -/
def dispatch (s : TriggerState) (e : SectionEvent) : TriggerState × List Effect :=
  if e.isIntersecting then handleSectionEnter s e.id else handleSectionLeave s e.id

/-- State after a sequence of observer entries. -/
def runState (s : TriggerState) : List SectionEvent → TriggerState
  | [] => s
  | e :: es => runState (dispatch s e).1 es

/-- Effects called over a sequence of observer entries, in call order. -/
def runEffects (s : TriggerState) : List SectionEvent → List Effect
  | [] => []
  | e :: es => (dispatch s e).2 ++ runEffects (dispatch s e).1 es

/-- The flag guarding an effect. -/
def TriggerState.flag (s : TriggerState) : Effect → Bool
  | .startAlphabetAnimation => s.alphabetTriggered
  | .openPortal => s.portalOpened
  | .showCredits => s.creditsShown

/-! ## Letter registry (`createAlphabetWall`, `lightUp`, `turnOff`, `turnOffAll`) -/

/-- One object of `state.letterElements`: `{ letter, container, bulb, char }`.  Of the three
elements only the classes toggled by the script are kept: `active` on `container` and `lit`
on `bulb`. -/
structure LetterEntry where
  letter : String
  active : Bool
  lit : Bool
  deriving DecidableEq, Repr

/-- `const alphabet = 'ABCDEFGHIJKLMNOPQRSTUVWXYZ'`. -/
def alphabet : String := "ABCDEFGHIJKLMNOPQRSTUVWXYZ"

/-- `createAlphabetWall()`: `state.letterElements = []`, then one `push` per element of
`alphabet.split('')`.  A new container has class `letter-container` and a new bulb
`letter-bulb`, so both flags start false. -/
def createAlphabetWall : List LetterEntry :=
  alphabet.data.foldl
    (fun letterElements letter =>
      letterElements ++ [{ letter := String.singleton letter, active := false, lit := false }])
    []

/-- Upper-case form of one code point under `String.prototype.toUpperCase`, a built-in of the
host language.  Exact on ASCII and on the two code points outside ASCII whose upper-case form
is an ASCII letter (U+0131 dotless i gives `I`, U+017F long s gives `S`).  Every other code
point is returned unchanged: the host maps some of them to other code points outside ASCII or
to several code points, and in both cases, as here, the result is no single letter `A`-`Z`,
which is all a comparison with a registry letter observes. -/
def toUpperChar (c : Char) : Char :=
  if 'a' ≤ c ∧ c ≤ 'z' then Char.ofNat (c.toNat - 32)
  else if c = Char.ofNat 0x131 then 'I'
  else if c = Char.ofNat 0x17F then 'S'
  else c

/-- `letter.toUpperCase()`, code point by code point. -/
def toUpperCase (letter : String) : String :=
  String.mk (letter.data.map toUpperChar)

/-- `state.letterElements.find(l => l.letter === letter.toUpperCase())`: the first entry that
matches, `none` for `undefined`. -/
def find (letterElements : List LetterEntry) (letter : String) : Option LetterEntry :=
  letterElements.find? fun l => l.letter == toUpperCase letter

/-- In-place update `f` of the object that `find(p)` returns; no change when it returns
`undefined` (`if (data) { ... }`). -/
def updateFound (p : LetterEntry → Bool) (f : LetterEntry → LetterEntry) :
    List LetterEntry → List LetterEntry
  | [] => []
  | d :: ds => if p d then f d :: ds else d :: updateFound p f ds

/-- `lightUp(letter)`. -/
def lightUp (letterElements : List LetterEntry) (letter : String) : List LetterEntry :=
  updateFound (fun l => l.letter == toUpperCase letter)
    (fun data => { data with active := true, lit := true }) letterElements

/-- `turnOff(letter)`. -/
def turnOff (letterElements : List LetterEntry) (letter : String) : List LetterEntry :=
  updateFound (fun l => l.letter == toUpperCase letter)
    (fun data => { data with active := false, lit := false }) letterElements

/-- `turnOffAll()`. -/
def turnOffAll (letterElements : List LetterEntry) : List LetterEntry :=
  letterElements.map fun d => { d with active := false, lit := false }

/-- The letters of a registry, in order. -/
def letters (letterElements : List LetterEntry) : List String :=
  letterElements.map fun l => l.letter

/-- A registry state: the entries made by `createAlphabetWall`, with any flags. -/
def IsRegistry (letterElements : List LetterEntry) : Prop :=
  letters letterElements = letters createAlphabetWall

instance (letterElements : List LetterEntry) : Decidable (IsRegistry letterElements) := by
  unfold IsRegistry; infer_instance

/-- A letter `A`-`Z` or `a`-`z`. -/
def isAsciiLetter (c : Char) : Bool :=
  (decide ('A' ≤ c) && decide (c ≤ 'Z')) || (decide ('a' ≤ c) && decide (c ≤ 'z'))

/-- A string that `toUpperCase` takes to a single letter `A`-`Z`: one letter of either case,
or one of the code points U+0131, U+017F. -/
def UppercasesToLetter (s : String) : Prop :=
  ∃ c : Char, s = String.singleton c ∧
    (isAsciiLetter c = true ∨ c = Char.ofNat 0x131 ∨ c = Char.ofNat 0x17F)

/-! ## Configuration -/

/-- `CONFIG.timing`, milliseconds. -/
structure Timing where
  letterDelay : ℕ
  messagePause : ℕ
  particleSpawnRate : ℕ
  deriving DecidableEq, Repr

/-- `CONFIG.particles`. -/
structure Particles where
  count : ℕ
  minDuration : ℕ
  maxDuration : ℕ
  deriving DecidableEq, Repr

/-- The shape of `CONFIG`. -/
structure Config where
  messages : List String
  timing : Timing
  particles : Particles
  deriving DecidableEq, Repr

/-- `const CONFIG = { ... }`. -/
def CONFIG : Config :=
  { messages := ["RUN", "HIDE", "IT IS HERE"],
    timing := { letterDelay := 350, messagePause := 1200, particleSpawnRate := 500 },
    particles := { count := 20, minDuration := 12, maxDuration := 20 } }

/-! ## Numbers of the flicker arithmetic -/

/-- Nearest integer to `y`, a tie going to the even one. -/
def roundHalfEven (y : ℚ) : ℤ :=
  if y - ⌊y⌋ < 1 / 2 then ⌊y⌋
  else if 1 / 2 < y - ⌊y⌋ then ⌊y⌋ + 1
  else if ⌊y⌋ % 2 = 0 then ⌊y⌋
  else ⌊y⌋ + 1

/-- Spacing of the doubles (IEEE 754 binary64) around `x`: `2 ^ (e - 52)` where
`2 ^ e ≤ |x| < 2 ^ (e + 1)`, and `2 ^ (-1074)` in the subnormal range. -/
def ulp (x : ℚ) : ℚ := (2 : ℚ) ^ max (Int.log 2 |x| - 52) (-1074)

/-- The double nearest to `x`, ties to even: the rounding applied to the exact result of every
arithmetic operation on Numbers (for `|x|` below the overflow threshold `2 ^ 1024`). -/
def roundDouble (x : ℚ) : ℚ := roundHalfEven (x / ulp x) * ulp x

/-- The rational `x` is the value of a double. -/
def IsDouble (x : ℚ) : Prop := roundDouble x = x

instance (x : ℚ) : Decidable (IsDouble x) := by
  unfold IsDouble; infer_instance

/-! ## Timeline of the alphabet animation -/

/-- A call that changes the registry or the transcript `DOM.messageDisplay.textContent`. -/
inductive Call
  | setMessageDisplay (text : String)
  | lightUp (letter : String)
  | turnOff (letter : String)
  | turnOffAll
  | addLit (index : ℕ)
  | removeLit (index : ℕ)
  deriving DecidableEq, Repr

/-- A call on the ideal timeline.  `issued` is the time at which the statement making or
scheduling the call ran, `time` the time at which the call itself runs (`issued` plus the
delay for a `setTimeout` callback), `iter` the iteration of the character loop of
`spellMessage` the statement belongs to (`none` outside that loop). -/
structure Event where
  issued : ℚ
  time : ℚ
  iter : Option ℕ
  call : Call
  deriving DecidableEq

/-- The random outcomes of one `randomFlicker()`: the value of `Math.random()` for the count,
the order of the copied array after `sort` (as positions in `state.letterElements`), and the
value of `Math.random()` in the `j`-th `forEach` callback. -/
structure FlickerDraw where
  count : ℚ
  order : List ℕ
  delay : ℕ → ℚ

/-- `2 + Math.floor(Math.random() * 3)`: the product is rounded to a double; the floor and
the sum with 2 are exact. -/
def flickerCount (r : ℚ) : ℤ := 2 + ⌊roundDouble (r * 3)⌋

/-- `[...state.letterElements].sort(...).slice(0, count)`, as positions in the registry
(`count` is at least 2, so `slice` counts from the start). -/
def flickerLetters (d : FlickerDraw) : List ℕ :=
  d.order.take (flickerCount d.count).toNat

/-- `80 + Math.random() * 120`: the product and then the sum are each rounded to a double. -/
def flickerDelay (r : ℚ) : ℚ := roundDouble (80 + roundDouble (r * 120))

/-- `randomFlicker()` run at time `now`: per selected entry the `add('lit')` and the
scheduled `remove('lit')`. -/
def randomFlicker (d : FlickerDraw) (now : ℚ) (iter : Option ℕ) : List Event :=
  (flickerLetters d).enum.flatMap fun ji =>
    [{ issued := now, time := now, iter := iter, call := Call.addLit ji.2 },
     { issued := now, time := now + flickerDelay (d.delay ji.1), iter := iter,
       call := Call.removeLit ji.2 }]

/-- The random outcomes of one iteration of the character loop: the value compared with
`0.6`, and the draws of the flicker it may start. -/
structure CharDraw where
  gate : ℚ
  flicker : FlickerDraw

/-- The `for (const char of msg)` loop of `spellMessage`, from iteration `i` on, with the
current `display` and clock; returns the calls and the clock at loop exit. -/
def spellLoop (cfg : Config) (rnd : ℕ → CharDraw) :
    List Char → ℕ → String → ℚ → List Event × ℚ
  | [], _, _, now => ([], now)
  | char :: rest, i, display, now =>
    if char = ' ' then
      let display := display ++ " "
      let write : Event :=
        { issued := now, time := now, iter := some i, call := Call.setMessageDisplay display }
      -- await sleep(CONFIG.timing.letterDelay)
      let now := now + cfg.timing.letterDelay
      let r := spellLoop cfg rnd rest (i + 1) display now
      (write :: r.1, r.2)
    else
      let light : Event :=
        { issued := now, time := now, iter := some i,
          call := Call.lightUp (String.singleton char) }
      let display := display ++ String.singleton char
      let write : Event :=
        { issued := now, time := now, iter := some i, call := Call.setMessageDisplay display }
      let flicker :=
        if (rnd i).gate > 0.6 then randomFlicker (rnd i).flicker now (some i) else []
      -- await sleep(CONFIG.timing.letterDelay)
      let now := now + cfg.timing.letterDelay
      let off : Event :=
        { issued := now, time := now + cfg.timing.letterDelay * 2, iter := some i,
          call := Call.turnOff (String.singleton char) }
      let r := spellLoop cfg rnd rest (i + 1) display now
      (light :: write :: (flicker ++ off :: r.1), r.2)

/-- `spellMessage(msg)` started at time `now`; returns the calls in the order in which their
statements run and the time at which the returned promise resolves. -/
def spellMessage (cfg : Config) (rnd : ℕ → CharDraw) (msg : String) (now : ℚ) :
    List Event × ℚ :=
  let clear : Event :=
    { issued := now, time := now, iter := none, call := Call.setMessageDisplay "" }
  let allOff : Event := { issued := now, time := now, iter := none, call := Call.turnOffAll }
  let r := spellLoop cfg rnd msg.data 0 "" now
  -- await sleep(CONFIG.timing.messagePause)
  (clear :: allOff :: r.1, r.2 + cfg.timing.messagePause)

/-- `for (let i = 0; i < n; i++) { randomFlicker(); await sleep(pause); }` with `n - i` equal
to `left`. -/
def flickerLoop (draw : ℕ → FlickerDraw) (pause : ℚ) : ℕ → ℕ → ℚ → List Event × ℚ
  | 0, _, now => ([], now)
  | left + 1, i, now =>
    let r := flickerLoop draw pause left (i + 1) (now + pause)
    (randomFlicker (draw i) now none ++ r.1, r.2)

/-- `for (const msg of CONFIG.messages) { await spellMessage(msg); await sleep(300); }` from
message number `m` on. -/
def spellMessages (cfg : Config) (rnd : ℕ → ℕ → CharDraw) :
    List String → ℕ → ℚ → List Event × ℚ
  | [], _, now => ([], now)
  | msg :: rest, m, now =>
    let s := spellMessage cfg (rnd m) msg now
    let r := spellMessages cfg rnd rest (m + 1) (s.2 + 300)
    (s.1 ++ r.1, r.2)

/-- The random outcomes of one run of `startAlphabetAnimation`. -/
structure RunDraw where
  initial : ℕ → FlickerDraw
  spell : ℕ → ℕ → CharDraw
  final : ℕ → FlickerDraw

/-- `startAlphabetAnimation()` started at time `now`. -/
def startAlphabetAnimation (cfg : Config) (draw : RunDraw) (now : ℚ) : List Event × ℚ :=
  let a := flickerLoop draw.initial 200 5 0 now
  let b := spellMessages cfg draw.spell cfg.messages 0 a.2
  let c := flickerLoop draw.final 150 3 0 b.2
  let allOff : Event := { issued := c.2, time := c.2, iter := none, call := Call.turnOffAll }
  let clear : Event :=
    { issued := c.2, time := c.2, iter := none, call := Call.setMessageDisplay "" }
  (a.1 ++ b.1 ++ c.1 ++ [allOff, clear], c.2)

/-- The values written to `DOM.messageDisplay.textContent`, in order.  Every write is made by
the asynchronous chain itself, never by a timer callback, so the order of the statements is
the order in time. -/
def transcript (events : List Event) : List String :=
  events.filterMap fun e =>
    match e.call with
    | Call.setMessageDisplay text => some text
    | _ => none

/-- The first `k` characters of `msg`. -/
def firstChars (msg : String) (k : ℕ) : String := String.mk (msg.data.take k)

/-- The transcripts `""`, first character, first two characters, ..., `msg`. -/
def spelling (msg : String) : List String :=
  (List.range (msg.length + 1)).map (firstChars msg)

/-- Draws under which no flicker starts in the character loop. -/
def quietDraw : ℕ → CharDraw :=
  fun _ => { gate := 0, flicker := { count := 0, order := [], delay := fun _ => 0 } }

/-! ## Scroll-linked styling (`setupScrollProgress`, `setupHeroScroll`) -/

/-- `percent` of the scroll listener of `setupScrollProgress`, with
`docHeight = scrollHeight - innerHeight`. -/
def scrollProgressPercent (scrollTop scrollHeight innerHeight : ℚ) : ℚ :=
  let docHeight := scrollHeight - innerHeight
  (scrollTop / docHeight) * 100

/-- `scrollPercent` of the scroll listener of `setupHeroScroll`
(`heroHeight` non-zero: the quotient is then a number). -/
def heroScrollPercent (scrollY heroHeight : ℚ) : ℚ :=
  min (scrollY / (heroHeight * 0.5)) 1

/-- The value written to `DOM.logoWrapper.style.opacity`. -/
def logoOpacity (scrollY heroHeight : ℚ) : ℚ :=
  1 - heroScrollPercent scrollY heroHeight

/-- The value written to `DOM.logoGlow.style.opacity`. -/
def logoGlowOpacity (scrollY heroHeight : ℚ) : ℚ :=
  (1 - heroScrollPercent scrollY heroHeight) * 0.6

/-- The value written to `DOM.scrollPrompt.style.opacity`. -/
def scrollPromptOpacity (scrollY heroHeight : ℚ) : ℚ :=
  max 0 (1 - (heroScrollPercent scrollY heroHeight * 2))

/-- The 52 letters `A`-`Z`, `a`-`z`. -/
def asciiLetters : List Char :=
  "ABCDEFGHIJKLMNOPQRSTUVWXYZabcdefghijklmnopqrstuvwxyz".data

/-- The positions whose bulb a list of calls lights with `add('lit')`, in call order. -/
def addLitIndices (events : List Event) : List ℕ :=
  events.filterMap fun e =>
    match e.call with
    | Call.addLit index => some index
    | _ => none

/-- The positions whose bulb a list of calls turns off with `remove('lit')`, in call order. -/
def removeLitIndices (events : List Event) : List ℕ :=
  events.filterMap fun e =>
    match e.call with
    | Call.removeLit index => some index
    | _ => none

/-- A sample of flicker draws: count draw 1/2, the registry reversed, every delay draw 1/4. -/
def sampleFlickerDraw : FlickerDraw :=
  { count := 1 / 2, order := (List.range 26).reverse, delay := fun _ => 1 / 4 }

/-- Whether a call is a call of `lightUp`. -/
def Call.isLightUp : Call → Bool
  | Call.lightUp _ => true
  | _ => false

/-- Whether a call is a call of `turnOff`. -/
def Call.isTurnOff : Call → Bool
  | Call.turnOff _ => true
  | _ => false

/-- The calls of `lightUp` made by iteration `i` of the character loop. -/
def lightUpsOf (events : List Event) (i : ℕ) : List Event :=
  events.filter fun e => decide (e.iter = some i) && e.call.isLightUp

/-- The calls of `turnOff` scheduled by iteration `i` of the character loop. -/
def turnOffsOf (events : List Event) (i : ℕ) : List Event :=
  events.filter fun e => decide (e.iter = some i) && e.call.isTurnOff

/-! # Theorems -/

/-! ### Lemmas on the dispatcher -/

theorem handleSectionEnter_effect_iff (s : TriggerState) (id : String) (x : Effect) :
    x ∈ (handleSectionEnter s id).2 ↔
      (s.flag x = false ∧ (handleSectionEnter s id).1.flag x = true) := by
  obtain ⟨a, p, c, g⟩ := s
  unfold handleSectionEnter
  split_ifs <;> cases x <;> simp_all [TriggerState.flag]

theorem handleSectionLeave_effect_iff (s : TriggerState) (id : String) (x : Effect) :
    x ∈ (handleSectionLeave s id).2 ↔
      (s.flag x = false ∧ (handleSectionLeave s id).1.flag x = true) := by
  obtain ⟨a, p, c, g⟩ := s
  unfold handleSectionLeave
  split_ifs <;> cases x <;> simp [TriggerState.flag]

theorem dispatch_effect_iff (s : TriggerState) (e : SectionEvent) (x : Effect) :
    x ∈ (dispatch s e).2 ↔ (s.flag x = false ∧ (dispatch s e).1.flag x = true) := by
  unfold dispatch
  split_ifs
  · exact handleSectionEnter_effect_iff s e.id x
  · exact handleSectionLeave_effect_iff s e.id x

theorem dispatch_count_le (s : TriggerState) (e : SectionEvent) (x : Effect) :
    (dispatch s e).2.count x ≤ 1 := by
  unfold dispatch handleSectionEnter handleSectionLeave
  split_ifs <;> cases x <;> simp

theorem dispatch_flag_mono (s : TriggerState) (e : SectionEvent) (x : Effect)
    (h : s.flag x = true) : (dispatch s e).1.flag x = true := by
  obtain ⟨a, p, c, g⟩ := s
  unfold dispatch handleSectionEnter handleSectionLeave
  split_ifs <;> cases x <;> simp_all [TriggerState.flag]

theorem dispatch_count_of_flag (s : TriggerState) (e : SectionEvent) (x : Effect)
    (h : s.flag x = true) : (dispatch s e).2.count x = 0 := by
  rw [List.count_eq_zero]
  intro hx
  have := (dispatch_effect_iff s e x).1 hx
  simp [h] at this

theorem runState_flag_mono (es : List SectionEvent) (s : TriggerState) (x : Effect)
    (h : s.flag x = true) : (runState s es).flag x = true := by
  induction es generalizing s with
  | nil => simpa [runState]
  | cons e es ih => exact ih _ (dispatch_flag_mono s e x h)

theorem runEffects_count_of_flag (es : List SectionEvent) (s : TriggerState) (x : Effect)
    (h : s.flag x = true) : (runEffects s es).count x = 0 := by
  induction es generalizing s with
  | nil => simp [runEffects]
  | cons e es ih =>
    simp only [runEffects, List.count_append]
    rw [dispatch_count_of_flag s e x h, ih _ (dispatch_flag_mono s e x h)]

theorem runEffects_count_le (es : List SectionEvent) (s : TriggerState) (x : Effect) :
    (runEffects s es).count x ≤ 1 := by
  induction es generalizing s with
  | nil => simp [runEffects]
  | cons e es ih =>
    simp only [runEffects, List.count_append]
    by_cases hx : x ∈ (dispatch s e).2
    · have h1 := ((dispatch_effect_iff s e x).1 hx).2
      rw [runEffects_count_of_flag es _ x h1]
      simpa using dispatch_count_le s e x
    · rw [List.count_eq_zero.2 hx]
      simpa using ih (dispatch s e).1

theorem runState_append (es₁ es₂ : List SectionEvent) (s : TriggerState) :
    runState s (es₁ ++ es₂) = runState (runState s es₁) es₂ := by
  induction es₁ generalizing s with
  | nil => rfl
  | cons e es ih => simpa [runState] using ih _

/-- C1: over every finite sequence of section enter/leave events from the initial state, each
of the three effects (start of the alphabet animation, portal opening, credits) is called at
most once; a flag that is true stays true whatever events follow; and the next event calls an
effect exactly when it turns the flag of that effect from false to true. -/
theorem one_shot_triggers (es : List SectionEvent) (x : Effect) :
    (runEffects TriggerState.initial es).count x ≤ 1 ∧
    (∀ more : List SectionEvent, (runState TriggerState.initial es).flag x = true →
      (runState TriggerState.initial (es ++ more)).flag x = true) ∧
    (∀ e : SectionEvent, x ∈ (dispatch (runState TriggerState.initial es) e).2 ↔
      ((runState TriggerState.initial es).flag x = false ∧
        (runState TriggerState.initial (es ++ [e])).flag x = true)) := by
  refine ⟨runEffects_count_le es _ x, ?_, ?_⟩
  · intro more h
    rw [runState_append]
    exact runState_flag_mono more _ x h
  · intro e
    rw [runState_append]
    exact dispatch_effect_iff _ e x

theorem one_shot_triggers_witness :
    (runEffects TriggerState.initial
        [⟨true, "alphabetSection"⟩, ⟨false, "alphabetSection"⟩, ⟨true, "alphabetSection"⟩]).count
          Effect.startAlphabetAnimation ≤ 1 ∧
    (runState TriggerState.initial
        ([⟨true, "alphabetSection"⟩, ⟨false, "alphabetSection"⟩, ⟨true, "alphabetSection"⟩] ++
          [⟨true, "portalSection"⟩])).flag Effect.startAlphabetAnimation = true :=
  ⟨(one_shot_triggers _ _).1, (one_shot_triggers _ _).2.1 _ (by decide)⟩

/-- C7: for a positive scrollable height `scrollHeight - innerHeight`, the progress percentage
is 0 at `scrollTop = 0`, 100 at `scrollTop = scrollHeight - innerHeight`, and within
`[0, 100]` for every `scrollTop` between the two (exact rationals). -/
theorem scrollProgressPercent_range (scrollHeight innerHeight : ℚ)
    (hH : 0 < scrollHeight - innerHeight) :
    scrollProgressPercent 0 scrollHeight innerHeight = 0 ∧
    scrollProgressPercent (scrollHeight - innerHeight) scrollHeight innerHeight = 100 ∧
    ∀ scrollTop : ℚ, 0 ≤ scrollTop → scrollTop ≤ scrollHeight - innerHeight →
      0 ≤ scrollProgressPercent scrollTop scrollHeight innerHeight ∧
      scrollProgressPercent scrollTop scrollHeight innerHeight ≤ 100 := by
  unfold scrollProgressPercent
  refine ⟨by simp, ?_, ?_⟩
  · simp only []
    rw [div_self (ne_of_gt hH)]; norm_num
  · intro scrollTop h0 h1
    simp only []
    constructor
    · positivity
    · have : scrollTop / (scrollHeight - innerHeight) ≤ 1 := (div_le_one hH).2 h1
      linarith

theorem scrollProgressPercent_range_witness :
    scrollProgressPercent 0 300 100 = 0 ∧ scrollProgressPercent (300 - 100) 300 100 = 100 :=
  ⟨(scrollProgressPercent_range 300 100 (by norm_num)).1,
   (scrollProgressPercent_range 300 100 (by norm_num)).2.1⟩

/-- C10, as stated, fails: at `scrollY = -10` (an overscrolled page) and a viewport 100 high
the logo opacity written is 6/5 and the scroll-prompt opacity 7/5, both above 1. -/
theorem heroScroll_opacity_above_one :
    logoOpacity (-10) 100 = 6 / 5 ∧ scrollPromptOpacity (-10) 100 = 7 / 5 ∧
    ¬ (logoOpacity (-10) 100 ≤ 1) ∧ ¬ (scrollPromptOpacity (-10) 100 ≤ 1) := by
  simp only [logoOpacity, scrollPromptOpacity, heroScrollPercent]
  norm_num

/-- C10, amended: for a positive viewport height and a scroll offset that is not negative, the
logo opacity and the scroll-prompt opacity both lie in `[0, 1]`; the logo opacity is
`1 - scrollY / (h / 2)` up to `scrollY = h / 2` and 0 from there on; the scroll-prompt
opacity is `1 - 2 * (scrollY / (h / 2))` up to `scrollY = h / 4` and 0 from there on. -/
theorem heroScroll_opacity (scrollY heroHeight : ℚ) (hh : 0 < heroHeight) (hs : 0 ≤ scrollY) :
    (0 ≤ logoOpacity scrollY heroHeight ∧ logoOpacity scrollY heroHeight ≤ 1) ∧
    (0 ≤ scrollPromptOpacity scrollY heroHeight ∧ scrollPromptOpacity scrollY heroHeight ≤ 1) ∧
    (scrollY ≤ heroHeight / 2 → logoOpacity scrollY heroHeight = 1 - scrollY / (heroHeight / 2)) ∧
    (heroHeight / 2 ≤ scrollY → logoOpacity scrollY heroHeight = 0) ∧
    (scrollY ≤ heroHeight / 4 →
      scrollPromptOpacity scrollY heroHeight = 1 - 2 * (scrollY / (heroHeight / 2))) ∧
    (heroHeight / 4 ≤ scrollY → scrollPromptOpacity scrollY heroHeight = 0) := by
  have hd : heroHeight * 0.5 = heroHeight / 2 := by norm_num; ring
  have hpos : 0 < heroHeight / 2 := by positivity
  have hx0 : 0 ≤ scrollY / (heroHeight / 2) := by positivity
  have hx1 : scrollY / (heroHeight / 2) ≤ 1 ↔ scrollY ≤ heroHeight / 2 := by
    rw [div_le_one hpos]
  have hx2 : 1 / 2 ≤ scrollY / (heroHeight / 2) ↔ heroHeight / 4 ≤ scrollY := by
    rw [le_div_iff₀ hpos]
    constructor <;> intro h <;> linarith
  have hx3 : 1 ≤ scrollY / (heroHeight / 2) ↔ heroHeight / 2 ≤ scrollY := by
    rw [one_le_div hpos]
  have hx4 : scrollY / (heroHeight / 2) ≤ 1 / 2 ↔ scrollY ≤ heroHeight / 4 := by
    rw [div_le_iff₀ hpos]
    constructor <;> intro h <;> linarith
  simp only [logoOpacity, scrollPromptOpacity, heroScrollPercent, hd]
  generalize scrollY / (heroHeight / 2) = x at *
  refine ⟨⟨?_, ?_⟩, ⟨?_, ?_⟩, ?_, ?_, ?_, ?_⟩
  · have := min_le_right x 1; linarith
  · have := le_min hx0 (zero_le_one' ℚ); linarith
  · exact le_max_left _ _
  · have := le_min hx0 (zero_le_one' ℚ)
    apply max_le <;> linarith
  · intro h; rw [min_eq_left (hx1.2 h)]
  · intro h
    rw [min_eq_right (hx3.2 h)]; norm_num
  · intro h
    have h1 := hx4.2 h
    rw [min_eq_left (by linarith), max_eq_right (by linarith)]; ring
  · intro h
    have h1 := hx2.2 h
    have h2 : 1 / 2 ≤ min x 1 := le_min h1 (by norm_num)
    rw [max_eq_left (by linarith)]

theorem heroScroll_opacity_witness :
    (0 ≤ logoOpacity 30 100 ∧ logoOpacity 30 100 ≤ 1) ∧
    (0 ≤ scrollPromptOpacity 30 100 ∧ scrollPromptOpacity 30 100 ≤ 1) :=
  ⟨(heroScroll_opacity 30 100 (by norm_num) (by norm_num)).1,
   (heroScroll_opacity 30 100 (by norm_num) (by norm_num)).2.1⟩

theorem char_le_iff (a b : Char) : a ≤ b ↔ a.toNat ≤ b.toNat := by
  show a.val ≤ b.val ↔ _
  rw [UInt32.le_def]
  rfl

theorem mem_asciiLetters_of_isAsciiLetter (c : Char) (h : isAsciiLetter c = true) :
    c ∈ asciiLetters := by
  have hc : Char.ofNat c.toNat = c := Char.ofNat_toNat c
  simp only [isAsciiLetter, Bool.or_eq_true, Bool.and_eq_true, decide_eq_true_eq,
    char_le_iff] at h
  generalize c.toNat = n at h hc
  subst hc
  have e1 : ('A' : Char).toNat = 65 := by decide
  have e2 : ('Z' : Char).toNat = 90 := by decide
  have e3 : ('a' : Char).toNat = 97 := by decide
  have e4 : ('z' : Char).toNat = 122 := by decide
  rw [e1, e2, e3, e4] at h
  rcases h with ⟨h1, h2⟩ | ⟨h1, h2⟩
  · interval_cases n <;> decide
  · interval_cases n <;> decide

theorem createAlphabetWall_letters :
    letters createAlphabetWall =
      ["A", "B", "C", "D", "E", "F", "G", "H", "I", "J", "K", "L", "M", "N", "O", "P", "Q",
       "R", "S", "T", "U", "V", "W", "X", "Y", "Z"] := by
  decide

theorem asciiLetters_upper :
    ∀ c ∈ asciiLetters,
      toUpperCase (String.singleton c) = String.singleton c.toUpper ∧
      toUpperCase (String.singleton c.toLower) = String.singleton c.toUpper ∧
      toUpperCase (String.singleton c.toUpper) = String.singleton c.toUpper ∧
      String.singleton c.toUpper ∈ letters createAlphabetWall := by
  decide

theorem find_of_mem_letters (U : String) :
    ∀ reg : List LetterEntry, (letters reg).Nodup → U ∈ letters reg →
      ∃ e, reg.find? (fun l => l.letter == U) = some e ∧ e.letter = U ∧
        reg.filter (fun l => l.letter == U) = [e]
  | [], _, h => by simp [letters] at h
  | d :: ds, hn, hU => by
    simp only [letters, List.map_cons, List.nodup_cons, List.mem_cons] at hn hU
    by_cases hd : d.letter = U
    · refine ⟨d, by simp [hd], hd, ?_⟩
      have : ∀ x ∈ ds, ¬ (x.letter == U) = true := by
        intro x hx hxU
        apply hn.1
        rw [hd, ← beq_iff_eq.1 hxU]
        exact List.mem_map_of_mem _ hx
      rw [List.filter_cons_of_pos (by simp [hd]), List.filter_eq_nil_iff.2 this]
    · have hU2 : U ∈ letters ds := by
        rcases hU with h | h
        · exact absurd h.symm hd
        · exact h
      obtain ⟨e, h1, h2, h3⟩ := find_of_mem_letters U ds hn.2 hU2
      refine ⟨e, ?_, h2, ?_⟩
      · rw [List.find?_cons_of_neg _ (by simp [hd])]; exact h1
      · rw [List.filter_cons_of_neg (by simp [hd])]; exact h3

theorem letters_nodup_of_isRegistry (reg : List LetterEntry) (h : IsRegistry reg) :
    (letters reg).Nodup := by
  rw [h]; decide

/-- C2: `createAlphabetWall` leaves 26 entries whose letters are `A`, ..., `Z` in this order,
none repeated; and in every registry state, for every letter `c` of either case, the lookup of
`lightUp`/`turnOff` finds an entry, its letter is the upper-case form of `c`, it is the only
entry that matches, and the lower-case and the upper-case form of `c` find the same entry. -/
theorem createAlphabetWall_lookup :
    createAlphabetWall.length = 26 ∧
    letters createAlphabetWall =
      ["A", "B", "C", "D", "E", "F", "G", "H", "I", "J", "K", "L", "M", "N", "O", "P", "Q",
       "R", "S", "T", "U", "V", "W", "X", "Y", "Z"] ∧
    (letters createAlphabetWall).Nodup ∧
    ∀ reg : List LetterEntry, IsRegistry reg → ∀ c : Char, isAsciiLetter c = true →
      ∃ e, find reg (String.singleton c) = some e ∧
        e.letter = String.singleton c.toUpper ∧
        reg.filter (fun l => l.letter == toUpperCase (String.singleton c)) = [e] ∧
        find reg (String.singleton c.toLower) = some e ∧
        find reg (String.singleton c.toUpper) = some e := by
  refine ⟨by decide, createAlphabetWall_letters, by decide, ?_⟩
  intro reg hreg c hc
  obtain ⟨h1, h2, h3, h4⟩ := asciiLetters_upper c (mem_asciiLetters_of_isAsciiLetter c hc)
  obtain ⟨e, he1, he2, he3⟩ :=
    find_of_mem_letters _ reg (letters_nodup_of_isRegistry reg hreg) (hreg ▸ h4)
  refine ⟨e, ?_, he2, ?_, ?_, ?_⟩
  · unfold find; rw [h1]; exact he1
  · rw [h1]; exact he3
  · unfold find; rw [h2]; exact he1
  · unfold find; rw [h3]; exact he1

theorem createAlphabetWall_lookup_witness :
    ∃ e, find createAlphabetWall (String.singleton 'q') = some e ∧
      e.letter = String.singleton 'q'.toUpper ∧
      createAlphabetWall.filter
        (fun l => l.letter == toUpperCase (String.singleton 'q')) = [e] ∧
      find createAlphabetWall (String.singleton 'q'.toLower) = some e ∧
      find createAlphabetWall (String.singleton 'q'.toUpper) = some e :=
  createAlphabetWall_lookup.2.2.2 createAlphabetWall (by decide) 'q' (by decide)

theorem updateFound_of_find_none (p : LetterEntry → Bool) (f : LetterEntry → LetterEntry) :
    ∀ reg : List LetterEntry, reg.find? p = none → updateFound p f reg = reg
  | [], _ => rfl
  | d :: ds, h => by
    rw [List.find?_eq_none] at h
    have hd : ¬ p d = true := h d (List.mem_cons_self _ _)
    have hds : ds.find? p = none := by
      rw [List.find?_eq_none]
      exact fun x hx => h x (List.mem_cons_of_mem _ hx)
    simp only [updateFound, if_neg hd, updateFound_of_find_none p f ds hds]

theorem updateFound_fixed (p : LetterEntry → Bool) (f : LetterEntry → LetterEntry) :
    ∀ reg : List LetterEntry, (∀ e ∈ reg, p e = true → f e = e) → updateFound p f reg = reg
  | [], _ => rfl
  | d :: ds, h => by
    unfold updateFound
    split_ifs with hd
    · rw [h d (List.mem_cons_self _ _) hd]
    · rw [updateFound_fixed p f ds (fun e he => h e (List.mem_cons_of_mem _ he))]

theorem updateFound_idem (p : LetterEntry → Bool) (f : LetterEntry → LetterEntry)
    (hp : ∀ e, p (f e) = p e) (hf : ∀ e, f (f e) = f e) :
    ∀ reg : List LetterEntry, updateFound p f (updateFound p f reg) = updateFound p f reg
  | [] => rfl
  | d :: ds => by
    by_cases hd : p d = true
    · have hfd : p (f d) = true := by rw [hp]; exact hd
      simp only [updateFound, if_pos hd, if_pos hfd, hf]
    · simp only [updateFound, if_neg hd, updateFound_idem p f hp hf ds]

theorem updateFound_eq_map (U : String) (f : LetterEntry → LetterEntry) :
    ∀ reg : List LetterEntry, (letters reg).Nodup →
      updateFound (fun l => l.letter == U) f reg =
        reg.map (fun e => if e.letter = U then f e else e)
  | [], _ => rfl
  | d :: ds, hn => by
    simp only [letters, List.map_cons, List.nodup_cons] at hn
    by_cases hd : d.letter = U
    · have hds : ds.map (fun e => if e.letter = U then f e else e) = ds := by
        conv_rhs => rw [← List.map_id ds]
        apply List.map_congr_left
        intro x hx
        have : x.letter ≠ U := by
          intro hxU
          apply hn.1
          rw [hd, ← hxU]
          exact List.mem_map_of_mem _ hx
        simp [this]
      simp only [updateFound, List.map_cons, hds, hd, beq_self_eq_true, if_true]
    · have hb : ¬ (d.letter == U) = true := by simpa using hd
      simp only [updateFound, List.map_cons, if_neg hd, if_neg hb]
      rw [updateFound_eq_map U f ds hn.2]

theorem letters_updateFound (p : LetterEntry → Bool) (f : LetterEntry → LetterEntry)
    (hf : ∀ e, (f e).letter = e.letter) :
    ∀ reg : List LetterEntry, letters (updateFound p f reg) = letters reg
  | [] => rfl
  | d :: ds => by
    unfold updateFound
    split_ifs
    · simp [letters, hf]
    · have := letters_updateFound p f hf ds
      simp only [letters] at this
      simp [letters, this]

theorem letters_lightUp (reg : List LetterEntry) (s : String) :
    letters (lightUp reg s) = letters reg := by
  unfold lightUp
  refine letters_updateFound _ _ ?_ reg
  intro e; rfl

theorem letters_turnOff (reg : List LetterEntry) (s : String) :
    letters (turnOff reg s) = letters reg := by
  unfold turnOff
  refine letters_updateFound _ _ ?_ reg
  intro e; rfl

theorem upperLetters_fixed :
    ∀ c ∈ alphabet.data,
      toUpperCase (String.singleton c) = String.singleton c ∧
      String.singleton c ∈ letters createAlphabetWall := by
  decide

theorem mem_alphabet_of_upper (c : Char) (h : 'A' ≤ c ∧ c ≤ 'Z') : c ∈ alphabet.data := by
  have hc : Char.ofNat c.toNat = c := Char.ofNat_toNat c
  simp only [char_le_iff] at h
  generalize c.toNat = n at h hc
  subst hc
  have e1 : ('A' : Char).toNat = 65 := by decide
  have e2 : ('Z' : Char).toNat = 90 := by decide
  rw [e1, e2] at h
  obtain ⟨h1, h2⟩ := h
  interval_cases n <;> decide

theorem singleton_injective (a b : Char) (h : String.singleton a = String.singleton b) :
    a = b := by
  have := congrArg String.data h
  simpa [String.singleton] using this

theorem registry_letter_upper (reg : List LetterEntry) (hreg : IsRegistry reg)
    (e : LetterEntry) (he : e ∈ reg) :
    ∃ C : Char, C ∈ alphabet.data ∧ e.letter = String.singleton C := by
  have h1 : e.letter ∈ letters reg := List.mem_map_of_mem _ he
  rw [hreg] at h1
  have h2 : ∀ U ∈ letters createAlphabetWall,
      ∃ C : Char, C ∈ alphabet.data ∧ U = String.singleton C := by
    decide
  exact h2 _ h1

theorem toUpperChar_upper_source (c C : Char) (hC : C ∈ alphabet.data)
    (h : toUpperChar c = C) :
    isAsciiLetter c = true ∨ c = Char.ofNat 0x131 ∨ c = Char.ofNat 0x17F := by
  unfold toUpperChar at h
  split_ifs at h with h1 h2 h3
  · left; simp [isAsciiLetter, h1]
  · right; left; exact h2
  · right; right; exact h3
  · left
    subst h
    have : ∀ x ∈ alphabet.data, isAsciiLetter x = true := by decide
    exact this c hC

theorem find_none_of_not_uppercasesToLetter (reg : List LetterEntry) (hreg : IsRegistry reg)
    (s : String) (hs : ¬ UppercasesToLetter s) :
    reg.find? (fun l => l.letter == toUpperCase s) = none := by
  rw [List.find?_eq_none]
  intro e he hbeq
  obtain ⟨C, hC, heC⟩ := registry_letter_upper reg hreg e he
  have h1 : e.letter = toUpperCase s := by simpa using hbeq
  rw [heC] at h1
  have h2 : [C] = s.data.map toUpperChar := by
    have := congrArg String.data h1
    simpa [String.singleton, toUpperCase] using this
  obtain ⟨l⟩ := s
  simp only at h2
  match l, h2 with
  | [c], h2 =>
    simp only [List.map_cons, List.map_nil, List.cons.injEq, and_true] at h2
    exact hs ⟨c, rfl, toUpperChar_upper_source c C hC h2.symm⟩

theorem not_uppercasesToLetter_singleton (c : Char) (h : isAsciiLetter c = false)
    (h1 : c ≠ Char.ofNat 0x131) (h2 : c ≠ Char.ofNat 0x17F) :
    ¬ UppercasesToLetter (String.singleton c) := by
  rintro ⟨d, hd, hd2⟩
  have := singleton_injective c d hd
  subst this
  rcases hd2 with h3 | h3 | h3
  · rw [h] at h3; exact Bool.noConfusion h3
  · exact h1 h3
  · exact h2 h3

theorem not_uppercasesToLetter_of_length (s : String) (h : s.length ≠ 1) :
    ¬ UppercasesToLetter s := by
  rintro ⟨d, hd, -⟩
  subst hd
  exact h rfl

/-- C3, as stated, fails: the one-character string U+0131 (dotless i) is no letter `A`-`Z` of
either case, yet its upper-case form is `I`, so the lookup finds the entry `I`, `lightUp`
sets its flags and `turnOff` clears them. -/
theorem lightUp_dotless_i_lights_I :
    (¬ ∃ c : Char, String.singleton (Char.ofNat 0x131) = String.singleton c ∧
        isAsciiLetter c = true) ∧
    find createAlphabetWall (String.singleton (Char.ofNat 0x131)) =
      some { letter := "I", active := false, lit := false } ∧
    lightUp createAlphabetWall (String.singleton (Char.ofNat 0x131)) ≠ createAlphabetWall ∧
    find (lightUp createAlphabetWall (String.singleton (Char.ofNat 0x131))) "I" =
      some { letter := "I", active := true, lit := true } ∧
    turnOff (lightUp createAlphabetWall "I") (String.singleton (Char.ofNat 0x131)) ≠
      lightUp createAlphabetWall "I" := by
  refine ⟨?_, by decide, by decide, by decide, by decide⟩
  rintro ⟨c, hc, hl⟩
  have := singleton_injective _ _ hc
  subst this
  revert hl
  decide

/-- C3, amended: in every registry state, for every input string other than a single letter
`A`-`Z` of either case and other than the one-character strings U+0131 and U+017F (whose
upper-case forms are `I` and `S`), the lookup finds no entry and `lightUp` and `turnOff`
return the registry unchanged, flags included. -/
theorem lightUp_turnOff_unrecognised (reg : List LetterEntry) (hreg : IsRegistry reg)
    (s : String) (hs : ¬ UppercasesToLetter s) :
    find reg s = none ∧ lightUp reg s = reg ∧ turnOff reg s = reg := by
  have h := find_none_of_not_uppercasesToLetter reg hreg s hs
  exact ⟨h, updateFound_of_find_none _ _ reg h, updateFound_of_find_none _ _ reg h⟩

theorem lightUp_turnOff_unrecognised_witness :
    IsRegistry (lightUp createAlphabetWall "K") ∧
    ¬ UppercasesToLetter "7" ∧
    find (lightUp createAlphabetWall "K") "7" = none ∧
    lightUp (lightUp createAlphabetWall "K") "7" = lightUp createAlphabetWall "K" ∧
    turnOff (lightUp createAlphabetWall "K") "7" = lightUp createAlphabetWall "K" :=
  ⟨by decide,
   not_uppercasesToLetter_singleton '7' (by decide) (by decide) (by decide),
   lightUp_turnOff_unrecognised (lightUp createAlphabetWall "K") (by decide) "7"
     (not_uppercasesToLetter_singleton '7' (by decide) (by decide) (by decide))⟩

/-- C4: in every registry state and for every letter `c` in `A`-`Z`, `lightUp(c)` followed by
`turnOff(c)` clears both flags of the entry of `c` and leaves every other entry as it was;
`turnOff(c)` on a state whose entry of `c` is off returns the same state; `lightUp(c)` twice
equals `lightUp(c)` once, and likewise `turnOff(c)`. -/
theorem lightUp_turnOff_algebra (reg : List LetterEntry) (hreg : IsRegistry reg)
    (c : Char) (hc : 'A' ≤ c ∧ c ≤ 'Z') :
    turnOff (lightUp reg (String.singleton c)) (String.singleton c) =
      reg.map (fun e =>
        if e.letter = String.singleton c then { e with active := false, lit := false }
        else e) ∧
    (∃ e ∈ turnOff (lightUp reg (String.singleton c)) (String.singleton c),
      e.letter = String.singleton c ∧ e.active = false ∧ e.lit = false) ∧
    ((∀ e ∈ reg, e.letter = String.singleton c → e.active = false ∧ e.lit = false) →
      turnOff reg (String.singleton c) = reg) ∧
    lightUp (lightUp reg (String.singleton c)) (String.singleton c) =
      lightUp reg (String.singleton c) ∧
    turnOff (turnOff reg (String.singleton c)) (String.singleton c) =
      turnOff reg (String.singleton c) := by
  obtain ⟨hu, hmem⟩ := upperLetters_fixed c (mem_alphabet_of_upper c hc)
  have hn := letters_nodup_of_isRegistry reg hreg
  have hn2 : (letters (lightUp reg (String.singleton c))).Nodup := by
    rw [letters_lightUp]; exact hn
  have hmap : turnOff (lightUp reg (String.singleton c)) (String.singleton c) =
      reg.map (fun e =>
        if e.letter = String.singleton c then { e with active := false, lit := false }
        else e) := by
    unfold turnOff
    rw [hu, updateFound_eq_map _ _ _ hn2]
    unfold lightUp
    rw [hu, updateFound_eq_map _ _ _ hn, List.map_map]
    apply List.map_congr_left
    intro e _
    by_cases he : e.letter = String.singleton c <;> simp [he]
  refine ⟨hmap, ?_, ?_, ?_, ?_⟩
  · rw [hmap]
    rw [← hreg] at hmem
    obtain ⟨e, he, hel⟩ := List.mem_map.1 hmem
    exact ⟨_, List.mem_map_of_mem _ he, by simp [hel], by simp [hel], by simp [hel]⟩
  · intro hoff
    unfold turnOff
    apply updateFound_fixed
    intro e he hp
    rw [hu] at hp
    have hel : e.letter = String.singleton c := by simpa using hp
    obtain ⟨ha, hl⟩ := hoff e he hel
    cases e
    simp_all
  · unfold lightUp
    refine updateFound_idem _ _ ?_ ?_ reg <;> intro e <;> rfl
  · unfold turnOff
    refine updateFound_idem _ _ ?_ ?_ reg <;> intro e <;> rfl

theorem lightUp_turnOff_algebra_witness :
    turnOff (lightUp createAlphabetWall (String.singleton 'H')) (String.singleton 'H') =
      createAlphabetWall.map (fun e =>
        if e.letter = String.singleton 'H' then { e with active := false, lit := false }
        else e) ∧
    turnOff createAlphabetWall (String.singleton 'H') = createAlphabetWall :=
  ⟨(lightUp_turnOff_algebra createAlphabetWall (by decide) 'H' (by decide)).1,
   (lightUp_turnOff_algebra createAlphabetWall (by decide) 'H' (by decide)).2.2.1
     (by decide)⟩

/-- C8: from any registry state `turnOffAll` gives a state in which every entry has both flags
false, with the same number of entries and the same letters in the same order. -/
theorem turnOffAll_all_off (reg : List LetterEntry) :
    (∀ e ∈ turnOffAll reg, e.active = false ∧ e.lit = false) ∧
    (turnOffAll reg).length = reg.length ∧
    letters (turnOffAll reg) = letters reg := by
  refine ⟨?_, by simp [turnOffAll], by simp [turnOffAll, letters]⟩
  intro e he
  obtain ⟨d, -, rfl⟩ := List.mem_map.1 he
  exact ⟨rfl, rfl⟩

theorem roundHalfEven_le (y : ℚ) (N : ℤ) (h : y ≤ N) : roundHalfEven y ≤ N := by
  have hf : ⌊y⌋ ≤ N := Int.floor_le_iff.2 (by linarith)
  have hfl := Int.floor_le y
  have hstep : 0 < y - ⌊y⌋ → ⌊y⌋ + 1 ≤ N := by
    intro hpos
    have hlt : ⌊y⌋ < N := by
      have : ((⌊y⌋ : ℤ) : ℚ) < N := by linarith
      exact_mod_cast this
    omega
  unfold roundHalfEven
  split_ifs with h1 h2 h3
  · exact hf
  · exact hstep (by linarith)
  · exact hf
  · exact hstep (by linarith)

theorem le_roundHalfEven (y : ℚ) (N : ℤ) (h : (N : ℚ) ≤ y) : N ≤ roundHalfEven y := by
  have hf : N ≤ ⌊y⌋ := Int.le_floor.2 h
  unfold roundHalfEven
  split_ifs <;> omega

theorem roundHalfEven_le_pred (y : ℚ) (N : ℤ) (h : y < N - 1 / 2) :
    roundHalfEven y ≤ N - 1 := by
  have hlt : ⌊y⌋ < N := Int.floor_lt.2 (by linarith)
  by_cases heq : ⌊y⌋ = N - 1
  · have hfr : y - ⌊y⌋ < 1 / 2 := by
      rw [heq]; push_cast; linarith
    unfold roundHalfEven
    rw [if_pos hfr, heq]
  · have h2 : ⌊y⌋ + 1 ≤ N - 1 := by omega
    unfold roundHalfEven
    split_ifs <;> omega

theorem roundHalfEven_intCast (n : ℤ) : roundHalfEven (n : ℚ) = n := by
  unfold roundHalfEven
  simp

theorem ulp_pos (x : ℚ) : 0 < ulp x := by
  unfold ulp
  positivity

theorem log_lt_of_abs_lt (x : ℚ) (e : ℤ) (he : 0 < e) (h : |x| < (2 : ℚ) ^ e) :
    Int.log 2 |x| < e := by
  rcases (abs_nonneg x).eq_or_lt with h0 | h0
  · rw [← h0, Int.log_zero_right]
    exact he
  · exact (Int.lt_zpow_iff_log_lt (by norm_num) h0).1 (by exact_mod_cast h)

theorem ulp_eq_inv_pow (x : ℚ) (hx : |x| < 2 ^ 53) : ∃ k : ℕ, ulp x = ((2 : ℚ) ^ k)⁻¹ := by
  have hlog : Int.log 2 |x| < 53 := log_lt_of_abs_lt x 53 (by norm_num) (by exact_mod_cast hx)
  have hm : max (Int.log 2 |x| - 52) (-1074) ≤ 0 := max_le (by omega) (by norm_num)
  obtain ⟨k, hk⟩ := Int.exists_eq_neg_ofNat hm
  exact ⟨k, by rw [ulp, hk, zpow_neg, zpow_natCast]⟩

theorem roundDouble_le_int (x : ℚ) (c : ℤ) (hx : |x| < 2 ^ 53) (h : x ≤ c) :
    roundDouble x ≤ c := by
  obtain ⟨k, hk⟩ := ulp_eq_inv_pow x hx
  have hp : (0 : ℚ) < 2 ^ k := by positivity
  unfold roundDouble
  rw [hk, div_inv_eq_mul]
  have h1 : x * 2 ^ k ≤ ((c * 2 ^ k : ℤ) : ℚ) := by
    push_cast
    exact mul_le_mul_of_nonneg_right h hp.le
  have h3 : ((roundHalfEven (x * 2 ^ k) : ℤ) : ℚ) ≤ ((c * 2 ^ k : ℤ) : ℚ) := by
    exact_mod_cast roundHalfEven_le _ _ h1
  push_cast at h3
  calc (roundHalfEven (x * 2 ^ k) : ℚ) * ((2 : ℚ) ^ k)⁻¹
      ≤ (c * 2 ^ k) * ((2 : ℚ) ^ k)⁻¹ := mul_le_mul_of_nonneg_right h3 (inv_nonneg.2 hp.le)
    _ = c := by field_simp

theorem int_le_roundDouble (x : ℚ) (c : ℤ) (hx : |x| < 2 ^ 53) (h : (c : ℚ) ≤ x) :
    (c : ℚ) ≤ roundDouble x := by
  obtain ⟨k, hk⟩ := ulp_eq_inv_pow x hx
  have hp : (0 : ℚ) < 2 ^ k := by positivity
  unfold roundDouble
  rw [hk, div_inv_eq_mul]
  have h1 : ((c * 2 ^ k : ℤ) : ℚ) ≤ x * 2 ^ k := by
    push_cast
    exact mul_le_mul_of_nonneg_right h hp.le
  have h3 : ((c * 2 ^ k : ℤ) : ℚ) ≤ ((roundHalfEven (x * 2 ^ k) : ℤ) : ℚ) := by
    exact_mod_cast le_roundHalfEven _ _ h1
  push_cast at h3
  calc (c : ℚ) = (c * 2 ^ k) * ((2 : ℚ) ^ k)⁻¹ := by field_simp
    _ ≤ (roundHalfEven (x * 2 ^ k) : ℚ) * ((2 : ℚ) ^ k)⁻¹ :=
        mul_le_mul_of_nonneg_right h3 (inv_nonneg.2 hp.le)

theorem ulp_of_binade (x : ℚ) (e : ℤ) (h1 : (2 : ℚ) ^ e ≤ |x|) (h2 : |x| < (2 : ℚ) ^ (e + 1)) :
    ulp x = (2 : ℚ) ^ max (e - 52) (-1074) := by
  have hpos : 0 < |x| := lt_of_lt_of_le (by positivity) h1
  have ha : e ≤ Int.log 2 |x| :=
    (Int.zpow_le_iff_le_log (by norm_num) hpos).1 (by exact_mod_cast h1)
  have hb : Int.log 2 |x| < e + 1 :=
    (Int.lt_zpow_iff_log_lt (by norm_num) hpos).1 (by exact_mod_cast h2)
  have : Int.log 2 |x| = e := by omega
  rw [ulp, this]

theorem roundDouble_of_binade (x : ℚ) (e : ℤ) (h1 : (2 : ℚ) ^ e ≤ |x|)
    (h2 : |x| < (2 : ℚ) ^ (e + 1)) :
    roundDouble x =
      roundHalfEven (x / (2 : ℚ) ^ max (e - 52) (-1074)) * (2 : ℚ) ^ max (e - 52) (-1074) := by
  rw [roundDouble, ulp_of_binade x e h1 h2]

theorem le_of_isDouble_lt_one (r : ℚ) (hd : IsDouble r) (h0 : 0 ≤ r) (h1 : r < 1) :
    r ≤ 1 - 1 / 2 ^ 53 := by
  by_cases hhalf : r < 1 / 2
  · have : (1 : ℚ) / 2 ^ 53 ≤ 1 / 2 := by norm_num
    linarith
  · push_neg at hhalf
    have habs : |r| = r := abs_of_nonneg h0
    have hrd := roundDouble_of_binade r (-1) (by rw [habs]; norm_num; linarith)
      (by rw [habs]; norm_num; linarith)
    have hmax : max ((-1 : ℤ) - 52) (-1074) = -53 := by decide
    rw [hmax] at hrd
    unfold IsDouble at hd
    rw [hrd] at hd
    have hq : (2 : ℚ) ^ (-53 : ℤ) = 1 / 2 ^ 53 := by norm_num
    rw [hq] at hd
    set n := roundHalfEven (r / (1 / 2 ^ 53)) with hn
    have hlt : (n : ℚ) < ((2 ^ 53 : ℤ) : ℚ) := by
      have : (n : ℚ) * (1 / 2 ^ 53) < 1 := by rw [hd]; exact h1
      push_cast
      have h53 : (0 : ℚ) < 2 ^ 53 := by positivity
      rw [mul_one_div, div_lt_one h53] at this
      exact this
    have hle : n ≤ 2 ^ 53 - 1 := by
      have : n < 2 ^ 53 := by exact_mod_cast hlt
      omega
    have hle' : (n : ℚ) ≤ 2 ^ 53 - 1 := by exact_mod_cast hle
    rw [← hd]
    have h53 : (0 : ℚ) < 1 / 2 ^ 53 := by positivity
    calc (n : ℚ) * (1 / 2 ^ 53) ≤ (2 ^ 53 - 1) * (1 / 2 ^ 53) :=
          mul_le_mul_of_nonneg_right hle' h53.le
      _ = 1 - 1 / 2 ^ 53 := by norm_num
theorem roundHalfEven_of_lt_half (y : ℚ) (n : ℤ) (h1 : (n : ℚ) ≤ y) (h2 : y < n + 1 / 2) :
    roundHalfEven y = n := by
  have hf : ⌊y⌋ = n := Int.floor_eq_iff.2 ⟨h1, by linarith⟩
  unfold roundHalfEven
  rw [hf, if_pos (by linarith)]

theorem roundHalfEven_of_tie_odd (y : ℚ) (n : ℤ) (h : y = n + 1 / 2) (hodd : n % 2 = 1) :
    roundHalfEven y = n + 1 := by
  have hf : ⌊y⌋ = n := Int.floor_eq_iff.2 ⟨by linarith, by linarith⟩
  have hfr : y - (n : ℚ) = 1 / 2 := by linarith
  unfold roundHalfEven
  rw [hf, hfr, if_neg (lt_irrefl _), if_neg (lt_irrefl _), if_neg (by omega)]

theorem isDouble_of_binade (x : ℚ) (e : ℤ) (n : ℤ) (h1 : (2 : ℚ) ^ e ≤ |x|)
    (h2 : |x| < (2 : ℚ) ^ (e + 1)) (hx : x = n * (2 : ℚ) ^ max (e - 52) (-1074)) :
    IsDouble x := by
  unfold IsDouble
  rw [roundDouble_of_binade x e h1 h2]
  have hp : (0 : ℚ) < (2 : ℚ) ^ max (e - 52) (-1074) := by positivity
  have : x / (2 : ℚ) ^ max (e - 52) (-1074) = n := by
    rw [hx]; field_simp
  rw [this, roundHalfEven_intCast, ← hx]

theorem flickerCount_bounds (r : ℚ) (hd : IsDouble r) (h0 : 0 ≤ r) (h1 : r < 1) :
    2 ≤ flickerCount r ∧ flickerCount r ≤ 4 := by
  have hr := le_of_isDouble_lt_one r hd h0 h1
  have hx0 : (0 : ℚ) ≤ r * 3 := by positivity
  have hx1 : r * 3 ≤ 3 - 3 / 2 ^ 53 := by linarith
  have habs : |r * 3| = r * 3 := abs_of_nonneg hx0
  have hbig : |r * 3| < 2 ^ 53 := by rw [habs]; norm_num at hx1 ⊢; linarith
  have hlo : (0 : ℚ) ≤ roundDouble (r * 3) := by
    have := int_le_roundDouble (r * 3) 0 hbig (by simpa using hx0)
    simpa using this
  have hhi : roundDouble (r * 3) < 3 := by
    by_cases h2 : r * 3 ≤ 2
    · have := roundDouble_le_int (r * 3) 2 hbig (by simpa using h2)
      push_cast at this
      linarith
    · push_neg at h2
      have hrd := roundDouble_of_binade (r * 3) 1 (by rw [habs]; norm_num; linarith)
        (by rw [habs]; norm_num at hx1 ⊢; linarith)
      have hmax : max ((1 : ℤ) - 52) (-1074) = -51 := by decide
      have hq : (2 : ℚ) ^ (-51 : ℤ) = 1 / 2 ^ 51 := by norm_num
      rw [hmax, hq] at hrd
      have hy : r * 3 / (1 / 2 ^ 51) < ((3 * 2 ^ 51 : ℤ) : ℚ) - 1 / 2 := by
        rw [div_div_eq_mul_div, div_one]
        push_cast
        have : r * 3 * 2 ^ 51 ≤ (3 - 3 / 2 ^ 53) * 2 ^ 51 :=
          mul_le_mul_of_nonneg_right hx1 (by positivity)
        norm_num at this ⊢
        linarith
      have hle := roundHalfEven_le_pred _ _ hy
      have hle' : (roundHalfEven (r * 3 / (1 / 2 ^ 51)) : ℚ) ≤ ((3 * 2 ^ 51 - 1 : ℤ) : ℚ) := by
        exact_mod_cast hle
      rw [hrd]
      have hp : (0 : ℚ) < 1 / 2 ^ 51 := by positivity
      calc (roundHalfEven (r * 3 / (1 / 2 ^ 51)) : ℚ) * (1 / 2 ^ 51)
          ≤ ((3 * 2 ^ 51 - 1 : ℤ) : ℚ) * (1 / 2 ^ 51) :=
            mul_le_mul_of_nonneg_right hle' hp.le
        _ < 3 := by norm_num
  have hf0 : 0 ≤ ⌊roundDouble (r * 3)⌋ := Int.floor_nonneg.2 hlo
  have hf3 : ⌊roundDouble (r * 3)⌋ < 3 := Int.floor_lt.2 (by exact_mod_cast hhi)
  unfold flickerCount
  omega

theorem flickerDelay_bounds (r : ℚ) (h0 : 0 ≤ r) (h1 : r < 1) :
    80 ≤ flickerDelay r ∧ flickerDelay r ≤ 200 := by
  have hx0 : (0 : ℚ) ≤ r * 120 := by positivity
  have hx1 : r * 120 ≤ 120 := by linarith
  have hbig : |r * 120| < 2 ^ 53 := by
    rw [abs_of_nonneg hx0]; norm_num; linarith
  have hlo : (0 : ℚ) ≤ roundDouble (r * 120) := by
    have := int_le_roundDouble (r * 120) 0 hbig (by simpa using hx0)
    simpa using this
  have hhi : roundDouble (r * 120) ≤ 120 := by
    have := roundDouble_le_int (r * 120) 120 hbig (by simpa using hx1)
    simpa using this
  have hbig2 : |80 + roundDouble (r * 120)| < 2 ^ 53 := by
    rw [abs_of_nonneg (by linarith)]; norm_num; linarith
  unfold flickerDelay
  constructor
  · have := int_le_roundDouble (80 + roundDouble (r * 120)) 80 hbig2 (by push_cast; linarith)
    simpa using this
  · have := roundDouble_le_int (80 + roundDouble (r * 120)) 200 hbig2 (by push_cast; linarith)
    simpa using this

theorem isDouble_below_one : IsDouble (1 - 1 / 2 ^ 53) :=
  isDouble_of_binade _ (-1) (2 ^ 53 - 1) (by rw [abs_of_nonneg] <;> norm_num)
    (by rw [abs_of_nonneg] <;> norm_num)
    (by
      have hmax : max ((-1 : ℤ) - 52) (-1074) = -53 := by decide
      rw [hmax]; norm_num)

theorem isDouble_below_two_thirds : IsDouble (6004799503160661 / 2 ^ 53) :=
  isDouble_of_binade _ (-1) 6004799503160661 (by rw [abs_of_nonneg] <;> norm_num)
    (by rw [abs_of_nonneg] <;> norm_num)
    (by
      have hmax : max ((-1 : ℤ) - 52) (-1074) = -53 := by decide
      rw [hmax]; norm_num)

theorem isDouble_half : IsDouble (1 / 2) :=
  isDouble_of_binade _ (-1) (2 ^ 52) (by rw [abs_of_nonneg] <;> norm_num)
    (by rw [abs_of_nonneg] <;> norm_num)
    (by
      have hmax : max ((-1 : ℤ) - 52) (-1074) = -53 := by decide
      rw [hmax]; norm_num)

theorem roundDouble_product_below_120 :
    roundDouble ((1 - 1 / 2 ^ 53) * 120) = 120 - 1 / 2 ^ 46 := by
  rw [roundDouble_of_binade _ 6 (by rw [abs_of_nonneg] <;> norm_num)
    (by rw [abs_of_nonneg] <;> norm_num)]
  have hmax : max ((6 : ℤ) - 52) (-1074) = -46 := by decide
  rw [hmax, roundHalfEven_of_lt_half _ (120 * 2 ^ 46 - 1) (by norm_num) (by norm_num)]
  norm_num

theorem roundDouble_sum_below_200 : roundDouble (80 + (120 - 1 / 2 ^ 46)) = 200 := by
  rw [roundDouble_of_binade _ 7 (by rw [abs_of_nonneg] <;> norm_num)
    (by rw [abs_of_nonneg] <;> norm_num)]
  have hmax : max ((7 : ℤ) - 52) (-1074) = -45 := by decide
  rw [hmax, roundHalfEven_of_tie_odd _ (200 * 2 ^ 45 - 1) (by norm_num) (by decide)]
  norm_num

theorem roundDouble_product_below_two :
    roundDouble (6004799503160661 / 2 ^ 53 * 3) = 2 := by
  rw [roundDouble_of_binade _ 0 (by rw [abs_of_nonneg] <;> norm_num)
    (by rw [abs_of_nonneg] <;> norm_num)]
  have hmax : max ((0 : ℤ) - 52) (-1074) = -52 := by decide
  rw [hmax, roundHalfEven_of_tie_odd _ (2 ^ 53 - 1) (by norm_num) (by decide)]
  norm_num

/-- C9, as stated, fails: the double `1 - 2^-53` lies in `[0, 1)`, and for it the delay
`80 + r' * 120` computed in doubles is exactly 200, not below 200; and for the double
`6004799503160661 / 2^53`, just below 2/3, the product `r * 3` rounds to 2, so four entries
are lit where `2 + floor(3 r)` over the reals is 3. -/
theorem flickerDelay_reaches_200 :
    (IsDouble (1 - 1 / 2 ^ 53) ∧ (0 : ℚ) ≤ 1 - 1 / 2 ^ 53 ∧ (1 - 1 / 2 ^ 53 : ℚ) < 1) ∧
    flickerDelay (1 - 1 / 2 ^ 53) = 200 ∧
    ¬ (flickerDelay (1 - 1 / 2 ^ 53) < 200) ∧
    (IsDouble (6004799503160661 / 2 ^ 53) ∧ (0 : ℚ) ≤ 6004799503160661 / 2 ^ 53 ∧
      (6004799503160661 / 2 ^ 53 : ℚ) < 1) ∧
    flickerCount (6004799503160661 / 2 ^ 53) = 4 ∧
    2 + ⌊3 * (6004799503160661 / 2 ^ 53 : ℚ)⌋ = 3 := by
  have hd : flickerDelay (1 - 1 / 2 ^ 53) = 200 := by
    unfold flickerDelay
    rw [roundDouble_product_below_120, roundDouble_sum_below_200]
  refine ⟨⟨isDouble_below_one, by norm_num, by norm_num⟩, hd, by rw [hd]; norm_num,
    ⟨isDouble_below_two_thirds, by norm_num, by norm_num⟩, ?_, ?_⟩
  · unfold flickerCount
    rw [roundDouble_product_below_two]
    norm_num
  · have : ⌊3 * (6004799503160661 / 2 ^ 53 : ℚ)⌋ = 1 :=
      Int.floor_eq_iff.2 ⟨by norm_num, by norm_num⟩
    rw [this]; norm_num
theorem flickerEvents_addLit (now : ℚ) (iter : Option ℕ) (delay : ℕ → ℚ) :
    ∀ (l : List ℕ) (n : ℕ),
      addLitIndices ((l.enumFrom n).flatMap fun ji =>
        [{ issued := now, time := now, iter := iter, call := Call.addLit ji.2 },
         { issued := now, time := now + flickerDelay (delay ji.1), iter := iter,
           call := Call.removeLit ji.2 }]) = l
  | [], _ => rfl
  | x :: xs, n => by
    have ih := flickerEvents_addLit now iter delay xs (n + 1)
    simp only [addLitIndices] at ih ⊢
    simp only [List.enumFrom_cons, List.flatMap_cons, List.filterMap_append]
    rw [ih]
    rfl

theorem flickerEvents_removeLit (now : ℚ) (iter : Option ℕ) (delay : ℕ → ℚ) :
    ∀ (l : List ℕ) (n : ℕ),
      removeLitIndices ((l.enumFrom n).flatMap fun ji =>
        [{ issued := now, time := now, iter := iter, call := Call.addLit ji.2 },
         { issued := now, time := now + flickerDelay (delay ji.1), iter := iter,
           call := Call.removeLit ji.2 }]) = l
  | [], _ => rfl
  | x :: xs, n => by
    have ih := flickerEvents_removeLit now iter delay xs (n + 1)
    simp only [removeLitIndices] at ih ⊢
    simp only [List.enumFrom_cons, List.flatMap_cons, List.filterMap_append]
    rw [ih]
    rfl

/-- C9, amended: for every outcome of the draws (the count draw a double in `[0, 1)`, the delay
draws in `[0, 1)`, the sorted copy any permutation of the 26 entries), `randomFlicker` lights
`n = 2 + floor(r * 3)` entries, the product rounded to a double, with `2 ≤ n ≤ 4`, at pairwise
distinct positions of the registry holding pairwise distinct entries, and schedules for each
of them one `remove('lit')` after the delay `80 + r' * 120`, each operation rounded to a
double, with `80 ≤ delay ≤ 200`. -/
theorem randomFlicker_selection (reg : List LetterEntry) (hreg : IsRegistry reg)
    (d : FlickerDraw) (hcount : IsDouble d.count ∧ 0 ≤ d.count ∧ d.count < 1)
    (horder : d.order.Perm (List.range reg.length))
    (hdelay : ∀ j, 0 ≤ d.delay j ∧ d.delay j < 1) (now : ℚ) (iter : Option ℕ) :
    flickerCount d.count = 2 + ⌊roundDouble (d.count * 3)⌋ ∧
    (2 ≤ flickerCount d.count ∧ flickerCount d.count ≤ 4) ∧
    ((flickerLetters d).length : ℤ) = flickerCount d.count ∧
    (flickerLetters d).Nodup ∧
    (∀ i ∈ flickerLetters d, i < reg.length) ∧
    ((flickerLetters d).map fun i => reg[i]?).Nodup ∧
    addLitIndices (randomFlicker d now iter) = flickerLetters d ∧
    removeLitIndices (randomFlicker d now iter) = flickerLetters d ∧
    (∀ e ∈ randomFlicker d now iter,
      (∃ i, e.call = Call.addLit i ∧ e.time = now) ∨
      (∃ i j, e.call = Call.removeLit i ∧
        e.time = now + roundDouble (80 + roundDouble (d.delay j * 120)) ∧
        80 ≤ roundDouble (80 + roundDouble (d.delay j * 120)) ∧
        roundDouble (80 + roundDouble (d.delay j * 120)) ≤ 200)) := by
  have hb := flickerCount_bounds d.count hcount.1 hcount.2.1 hcount.2.2
  have hlen : reg.length = 26 := by
    have h1 : (letters reg).length = (letters createAlphabetWall).length := by rw [hreg]
    simpa [letters] using h1
  have holen : d.order.length = 26 := by
    rw [horder.length_eq, List.length_range, hlen]
  have hnd : d.order.Nodup := horder.nodup_iff.2 (List.nodup_range _)
  have hsub : ∀ i ∈ flickerLetters d, i < reg.length := by
    intro i hi
    have : i ∈ d.order := List.mem_of_mem_take hi
    exact List.mem_range.1 (horder.mem_iff.1 this)
  have hfn : (flickerLetters d).Nodup := hnd.sublist (List.take_sublist _ _)
  refine ⟨rfl, hb, ?_, hfn, hsub, ?_, ?_, ?_, ?_⟩
  · unfold flickerLetters
    rw [List.length_take, holen]
    omega
  · have hregnd : reg.Nodup := by
      have := letters_nodup_of_isRegistry reg hreg
      exact List.Nodup.of_map _ this
    apply List.Nodup.map_on _ hfn
    intro x hx y hy hxy
    have hx' := hsub x hx
    have hy' := hsub y hy
    rw [List.getElem?_eq_getElem hx', List.getElem?_eq_getElem hy'] at hxy
    exact (List.Nodup.getElem_inj_iff hregnd).1 (Option.some.inj hxy)
  · exact flickerEvents_addLit now iter d.delay _ 0
  · exact flickerEvents_removeLit now iter d.delay _ 0
  · intro e he
    unfold randomFlicker at he
    rw [List.mem_flatMap] at he
    obtain ⟨ji, -, hji⟩ := he
    simp only [List.mem_cons, List.mem_singleton, List.not_mem_nil, or_false] at hji
    rcases hji with rfl | rfl
    · left; exact ⟨_, rfl, rfl⟩
    · right
      have := flickerDelay_bounds _ (hdelay ji.1).1 (hdelay ji.1).2
      exact ⟨_, ji.1, rfl, rfl, this.1, this.2⟩

theorem randomFlicker_selection_witness :
    (2 ≤ flickerCount sampleFlickerDraw.count ∧ flickerCount sampleFlickerDraw.count ≤ 4) ∧
    ((flickerLetters sampleFlickerDraw).length : ℤ) = flickerCount sampleFlickerDraw.count :=
  ⟨(randomFlicker_selection createAlphabetWall (by decide) sampleFlickerDraw
      ⟨isDouble_half, by norm_num [sampleFlickerDraw], by norm_num [sampleFlickerDraw]⟩
      (List.reverse_perm _)
      (fun _ => by norm_num [sampleFlickerDraw]) 0 none).2.1,
   (randomFlicker_selection createAlphabetWall (by decide) sampleFlickerDraw
      ⟨isDouble_half, by norm_num [sampleFlickerDraw], by norm_num [sampleFlickerDraw]⟩
      (List.reverse_perm _)
      (fun _ => by norm_num [sampleFlickerDraw]) 0 none).2.2.1⟩

theorem transcript_append (a b : List Event) :
    transcript (a ++ b) = transcript a ++ transcript b := by
  simp [transcript, List.filterMap_append]

theorem transcript_randomFlicker (d : FlickerDraw) (now : ℚ) (iter : Option ℕ) :
    transcript (randomFlicker d now iter) = [] := by
  unfold randomFlicker
  generalize (flickerLetters d).enum = l
  induction l with
  | nil => rfl
  | cons x xs ih =>
    rw [List.flatMap_cons, transcript_append, ih]
    rfl

theorem transcript_flickerLoop (draw : ℕ → FlickerDraw) (pause : ℚ) :
    ∀ (left i : ℕ) (now : ℚ), transcript (flickerLoop draw pause left i now).1 = []
  | 0, _, _ => rfl
  | left + 1, i, now => by
    simp only [flickerLoop, transcript_append, transcript_randomFlicker,
      transcript_flickerLoop draw pause left, List.append_nil]

theorem string_append_cons (display : String) (c : Char) (l : List Char) :
    display ++ String.singleton c ++ String.mk l = display ++ String.mk (c :: l) := by
  apply String.ext
  simp [String.singleton]

theorem transcript_spellLoop (cfg : Config) (rnd : ℕ → CharDraw) :
    ∀ (cs : List Char) (i : ℕ) (display : String) (now : ℚ),
      transcript (spellLoop cfg rnd cs i display now).1 =
        (List.range cs.length).map fun k => display ++ String.mk (cs.take (k + 1))
  | [], _, _, _ => rfl
  | c :: rest, i, display, now => by
    have hrange : (List.range (c :: rest).length).map
          (fun k => display ++ String.mk ((c :: rest).take (k + 1))) =
        (display ++ String.singleton c) ::
          (List.range rest.length).map
            (fun k => display ++ String.singleton c ++ String.mk (rest.take (k + 1))) := by
      rw [List.length_cons, List.range_succ_eq_map, List.map_cons, List.map_map]
      congr 1
      apply List.map_congr_left
      intro k _
      simp only [Function.comp, List.take_succ_cons, string_append_cons]
    rw [hrange]
    by_cases hc : c = ' '
    · subst hc
      simp only [spellLoop, if_true]
      show _ :: transcript _ = _
      rw [transcript_spellLoop cfg rnd rest]
      rfl
    · simp only [spellLoop, if_neg hc]
      show _ :: transcript _ = _
      rw [transcript_append]
      have hf : transcript
          (if (rnd i).gate > 0.6 then randomFlicker (rnd i).flicker now (some i) else []) =
          [] := by
        split_ifs
        · exact transcript_randomFlicker _ _ _
        · rfl
      rw [hf, List.nil_append]
      show _ :: transcript (spellLoop cfg rnd rest _ _ _).1 = _
      rw [transcript_spellLoop cfg rnd rest]

theorem transcript_spellMessage (cfg : Config) (rnd : ℕ → CharDraw) (msg : String) (now : ℚ) :
    transcript (spellMessage cfg rnd msg now).1 = spelling msg := by
  unfold spellMessage spelling
  show _ :: transcript (spellLoop cfg rnd msg.data 0 "" now).1 = _
  rw [transcript_spellLoop, String.length, List.range_succ_eq_map, List.map_cons, List.map_map]
  congr 1

theorem transcript_spellMessages (cfg : Config) (rnd : ℕ → ℕ → CharDraw) :
    ∀ (msgs : List String) (m : ℕ) (now : ℚ),
      transcript (spellMessages cfg rnd msgs m now).1 = msgs.flatMap spelling
  | [], _, _ => rfl
  | msg :: rest, m, now => by
    simp only [spellMessages, transcript_append, transcript_spellMessage,
      transcript_spellMessages cfg rnd rest, List.flatMap_cons]

/-- C5: the values written to the transcript by `spellMessage(msg)` are, in order, the empty
string and then the first `k` characters of `msg` for `k = 1, ..., length of msg` (for `RUN`:
`""`, `R`, `RU`, `RUN`); `startAlphabetAnimation` writes these sequences message after
message in the configured order, each starting from the empty string, and its last write is
the empty string. -/
theorem spellMessage_transcript (cfg : Config) (rnd : ℕ → CharDraw) (draw : RunDraw)
    (msg : String) (now : ℚ) :
    transcript (spellMessage cfg rnd msg now).1 =
      (List.range (msg.length + 1)).map (firstChars msg) ∧
    firstChars msg 0 = "" ∧
    firstChars msg msg.length = msg ∧
    transcript (spellMessage cfg rnd "RUN" now).1 = ["", "R", "RU", "RUN"] ∧
    transcript (startAlphabetAnimation cfg draw now).1 =
      cfg.messages.flatMap
        (fun m => (List.range (m.length + 1)).map (firstChars m)) ++ [""] := by
  refine ⟨transcript_spellMessage cfg rnd msg now, rfl, ?_, ?_, ?_⟩
  · apply String.ext
    show List.take msg.data.length msg.data = msg.data
    exact List.take_length _
  · rw [transcript_spellMessage]
    decide
  · show transcript (_ ++ _ ++ _ ++ [_, _]) = _
    rw [transcript_append, transcript_append, transcript_append, transcript_flickerLoop,
      transcript_flickerLoop, transcript_spellMessages, List.nil_append, List.append_nil]
    rfl
theorem randomFlicker_calls (d : FlickerDraw) (now : ℚ) (iter : Option ℕ) :
    ∀ e ∈ randomFlicker d now iter,
      e.iter = iter ∧ e.call.isLightUp = false ∧ e.call.isTurnOff = false := by
  intro e he
  unfold randomFlicker at he
  rw [List.mem_flatMap] at he
  obtain ⟨ji, -, hji⟩ := he
  simp only [List.mem_cons, List.mem_singleton, List.not_mem_nil, or_false] at hji
  rcases hji with rfl | rfl <;> exact ⟨rfl, rfl, rfl⟩

theorem spellLoop_iter (cfg : Config) (rnd : ℕ → CharDraw) :
    ∀ (cs : List Char) (i : ℕ) (display : String) (now : ℚ),
      ∀ e ∈ (spellLoop cfg rnd cs i display now).1, ∃ j, e.iter = some j ∧ i ≤ j
  | [], _, _, _ => by intro e he; simp [spellLoop] at he
  | c :: rest, i, display, now => by
    intro e he
    have ih := spellLoop_iter cfg rnd rest (i + 1)
    by_cases hc : c = ' '
    · simp only [spellLoop, if_pos hc, List.mem_cons] at he
      rcases he with rfl | he
      · exact ⟨i, rfl, le_refl _⟩
      · obtain ⟨j, hj, hij⟩ := ih _ _ e he
        exact ⟨j, hj, by omega⟩
    · simp only [spellLoop, if_neg hc, List.mem_cons, List.mem_append] at he
      rcases he with rfl | rfl | he | rfl | he
      · exact ⟨i, rfl, le_refl _⟩
      · exact ⟨i, rfl, le_refl _⟩
      · split_ifs at he
        · exact ⟨i, (randomFlicker_calls _ _ _ e he).1, le_refl _⟩
        · simp at he
      · exact ⟨i, rfl, le_refl _⟩
      · obtain ⟨j, hj, hij⟩ := ih _ _ e he
        exact ⟨j, hj, by omega⟩

theorem filter_eq_nil_of_iter (events : List Event) (p : Call → Bool) (i : ℕ)
    (h : ∀ e ∈ events, e.iter ≠ some i ∨ p e.call = false) :
    events.filter (fun e => decide (e.iter = some i) && p e.call) = [] := by
  rw [List.filter_eq_nil_iff]
  intro e he
  rcases h e he with h1 | h1 <;> simp [h1]

theorem spellLoop_lightUp_turnOff (cfg : Config) (rnd : ℕ → CharDraw) :
    ∀ (cs : List Char) (i : ℕ) (display : String) (now : ℚ) (k : ℕ) (c : Char),
      cs[k]? = some c → c ≠ ' ' →
      lightUpsOf (spellLoop cfg rnd cs i display now).1 (i + k) =
        [{ issued := now + k * cfg.timing.letterDelay,
           time := now + k * cfg.timing.letterDelay,
           iter := some (i + k), call := Call.lightUp (String.singleton c) }] ∧
      turnOffsOf (spellLoop cfg rnd cs i display now).1 (i + k) =
        [{ issued := now + k * cfg.timing.letterDelay + cfg.timing.letterDelay,
           time := now + k * cfg.timing.letterDelay + 3 * cfg.timing.letterDelay,
           iter := some (i + k), call := Call.turnOff (String.singleton c) }]
  | [], _, _, _, _, _, h, _ => by simp at h
  | x :: rest, i, display, now, 0, c, h, hc => by
    simp only [List.getElem?_cons_zero, Option.some.injEq] at h
    subst h
    have hrest : ∀ p : Call → Bool,
        (spellLoop cfg rnd rest (i + 1) (display ++ String.singleton x)
          (now + cfg.timing.letterDelay)).1.filter
            (fun e => decide (e.iter = some i) && p e.call) = [] := by
      intro p
      apply filter_eq_nil_of_iter
      intro e he
      obtain ⟨j, hj, hij⟩ := spellLoop_iter cfg rnd rest (i + 1) _ _ e he
      left
      rw [hj]
      intro hh
      have := Option.some.inj hh
      omega
    have hfl : ∀ p : Call → Bool, (∀ e ∈ randomFlicker (rnd i).flicker now (some i),
          p e.call = false) →
        (if (rnd i).gate > 0.6 then randomFlicker (rnd i).flicker now (some i)
          else []).filter (fun e => decide (e.iter = some i) && p e.call) = [] := by
      intro p hp
      apply filter_eq_nil_of_iter
      intro e he
      split_ifs at he
      · right; exact hp e he
      · simp at he
    simp only [lightUpsOf, turnOffsOf, spellLoop, if_neg hc, Nat.add_zero, Nat.cast_zero,
      zero_mul, add_zero]
    constructor
    · rw [List.filter_cons_of_pos (by simp [Call.isLightUp]),
        List.filter_cons_of_neg (by simp [Call.isLightUp]), List.filter_append,
        hfl _ (fun e he => (randomFlicker_calls _ _ _ e he).2.1),
        List.nil_append, List.filter_cons_of_neg (by simp [Call.isLightUp]), hrest]
    · rw [List.filter_cons_of_neg (by simp [Call.isTurnOff]),
        List.filter_cons_of_neg (by simp [Call.isTurnOff]), List.filter_append,
        hfl _ (fun e he => (randomFlicker_calls _ _ _ e he).2.2),
        List.nil_append, List.filter_cons_of_pos (by simp [Call.isTurnOff]), hrest]
      congr 2
      ring
  | x :: rest, i, display, now, k + 1, c, h, hc => by
    simp only [List.getElem?_cons_succ] at h
    have hik : i + (k + 1) = (i + 1) + k := by omega
    have hne : ¬ (some i = some (i + 1 + k)) := by
      intro hh
      have := Option.some.inj hh
      omega
    have hfl : ∀ p : Call → Bool,
        (if (rnd i).gate > 0.6 then randomFlicker (rnd i).flicker now (some i)
          else []).filter (fun e => decide (e.iter = some (i + 1 + k)) && p e.call) = [] := by
      intro p
      apply filter_eq_nil_of_iter
      intro e he
      split_ifs at he
      · left
        rw [(randomFlicker_calls _ _ _ e he).1]
        exact hne
      · simp at he
    have t1 : now + ((k + 1 : ℕ) : ℚ) * cfg.timing.letterDelay =
        now + cfg.timing.letterDelay + k * cfg.timing.letterDelay := by
      push_cast; ring
    rw [hik, t1]
    by_cases hx : x = ' '
    · obtain ⟨ih1, ih2⟩ := spellLoop_lightUp_turnOff cfg rnd rest (i + 1) (display ++ " ")
        (now + cfg.timing.letterDelay) k c h hc
      simp only [lightUpsOf, turnOffsOf] at ih1 ih2 ⊢
      simp only [spellLoop, if_pos hx]
      rw [List.filter_cons_of_neg (by simp [hne]), List.filter_cons_of_neg (by simp [hne])]
      exact ⟨ih1, ih2⟩
    · obtain ⟨ih1, ih2⟩ := spellLoop_lightUp_turnOff cfg rnd rest (i + 1)
        (display ++ String.singleton x) (now + cfg.timing.letterDelay) k c h hc
      simp only [lightUpsOf, turnOffsOf] at ih1 ih2 ⊢
      simp only [spellLoop, if_neg hx]
      rw [List.filter_cons_of_neg (by simp [hne]), List.filter_cons_of_neg (by simp [hne]),
        List.filter_append, hfl, List.nil_append, List.filter_cons_of_neg (by simp [hne]),
        List.filter_cons_of_neg (by simp [hne]), List.filter_cons_of_neg (by simp [hne]),
        List.filter_append, hfl, List.nil_append, List.filter_cons_of_neg (by simp [hne])]
      exact ⟨ih1, ih2⟩
theorem spellMessage_lightUp_turnOff (cfg : Config) (rnd : ℕ → CharDraw) (msg : String)
    (now : ℚ) (k : ℕ) (c : Char) (h : msg.data[k]? = some c) (hc : c ≠ ' ') :
    lightUpsOf (spellMessage cfg rnd msg now).1 k =
      [{ issued := now + k * cfg.timing.letterDelay,
         time := now + k * cfg.timing.letterDelay,
         iter := some k, call := Call.lightUp (String.singleton c) }] ∧
    turnOffsOf (spellMessage cfg rnd msg now).1 k =
      [{ issued := now + k * cfg.timing.letterDelay + cfg.timing.letterDelay,
         time := now + k * cfg.timing.letterDelay + 3 * cfg.timing.letterDelay,
         iter := some k, call := Call.turnOff (String.singleton c) }] := by
  have := spellLoop_lightUp_turnOff cfg rnd msg.data 0 "" now k c h hc
  rw [Nat.zero_add] at this
  simp only [lightUpsOf, turnOffsOf] at this ⊢
  simp only [spellMessage]
  rw [List.filter_cons_of_neg (by simp), List.filter_cons_of_neg (by simp),
    List.filter_cons_of_neg (by simp), List.filter_cons_of_neg (by simp)]
  exact this

/-- C6, as stated, fails: in `spellMessage("RUN")` started at time 0 with the configured
delays, the letter `R` is lit at time 0 and its `turnOff` runs at time 1050, which is
3 x 350 and not 2 x 350 after the light-up. -/
theorem turnOff_R_not_two_delays_after_lightUp :
    lightUpsOf (spellMessage CONFIG quietDraw "RUN" 0).1 0 =
      [{ issued := 0, time := 0, iter := some 0, call := Call.lightUp "R" }] ∧
    turnOffsOf (spellMessage CONFIG quietDraw "RUN" 0).1 0 =
      [{ issued := 350, time := 1050, iter := some 0, call := Call.turnOff "R" }] ∧
    ¬ (∀ e₁ ∈ lightUpsOf (spellMessage CONFIG quietDraw "RUN" 0).1 0,
        ∀ e₂ ∈ turnOffsOf (spellMessage CONFIG quietDraw "RUN" 0).1 0,
          e₂.time = e₁.time + 2 * CONFIG.timing.letterDelay) := by
  obtain ⟨h1, h2⟩ := spellMessage_lightUp_turnOff CONFIG quietDraw "RUN" 0 0 'R' rfl (by decide)
  have e1 : lightUpsOf (spellMessage CONFIG quietDraw "RUN" 0).1 0 =
      [{ issued := 0, time := 0, iter := some 0, call := Call.lightUp "R" }] := by
    rw [h1]; norm_num [CONFIG]; rfl
  have e2 : turnOffsOf (spellMessage CONFIG quietDraw "RUN" 0).1 0 =
      [{ issued := 350, time := 1050, iter := some 0, call := Call.turnOff "R" }] := by
    rw [h2]; norm_num [CONFIG]; rfl
  refine ⟨e1, e2, ?_⟩
  rw [e1, e2]
  intro h
  have := h _ (List.mem_singleton_self _) _ (List.mem_singleton_self _)
  norm_num [CONFIG] at this

/-- C6, amended: in `spellMessage`, for every character of the message other than a space, the
iteration of that character makes exactly one call of `lightUp`, at the time `t` at which the
iteration starts, and schedules exactly one call of `turnOff` for the same letter; that call
is scheduled at `t + letterDelay` and runs at `t + 3 x letterDelay`, that is exactly
3 x letterDelay after the light-up, never before it. -/
theorem turnOff_three_delays_after_lightUp (cfg : Config) (rnd : ℕ → CharDraw) (msg : String)
    (now : ℚ) (k : ℕ) (c : Char) (h : msg.data[k]? = some c) (hc : c ≠ ' ') :
    lightUpsOf (spellMessage cfg rnd msg now).1 k =
      [{ issued := now + k * cfg.timing.letterDelay,
         time := now + k * cfg.timing.letterDelay,
         iter := some k, call := Call.lightUp (String.singleton c) }] ∧
    turnOffsOf (spellMessage cfg rnd msg now).1 k =
      [{ issued := now + k * cfg.timing.letterDelay + cfg.timing.letterDelay,
         time := now + k * cfg.timing.letterDelay + 3 * cfg.timing.letterDelay,
         iter := some k, call := Call.turnOff (String.singleton c) }] ∧
    (∀ e₁ ∈ lightUpsOf (spellMessage cfg rnd msg now).1 k,
      ∀ e₂ ∈ turnOffsOf (spellMessage cfg rnd msg now).1 k,
        e₂.time = e₁.time + 3 * cfg.timing.letterDelay ∧ e₁.time ≤ e₂.time) := by
  obtain ⟨h1, h2⟩ := spellMessage_lightUp_turnOff cfg rnd msg now k c h hc
  refine ⟨h1, h2, ?_⟩
  rw [h1, h2]
  intro e₁ he₁ e₂ he₂
  rw [List.mem_singleton] at he₁ he₂
  subst he₁ he₂
  refine ⟨rfl, ?_⟩
  have : (0 : ℚ) ≤ 3 * cfg.timing.letterDelay := by positivity
  show now + k * cfg.timing.letterDelay ≤ now + k * cfg.timing.letterDelay + 3 * _
  linarith

theorem turnOff_three_delays_after_lightUp_witness :
    lightUpsOf (spellMessage CONFIG quietDraw "IT IS HERE" 0).1 7 =
      [{ issued := 0 + (7 : ℕ) * CONFIG.timing.letterDelay,
         time := 0 + (7 : ℕ) * CONFIG.timing.letterDelay,
         iter := some 7, call := Call.lightUp (String.singleton 'E') }] ∧
    turnOffsOf (spellMessage CONFIG quietDraw "IT IS HERE" 0).1 7 =
      [{ issued := 0 + (7 : ℕ) * CONFIG.timing.letterDelay + CONFIG.timing.letterDelay,
         time := 0 + (7 : ℕ) * CONFIG.timing.letterDelay + 3 * CONFIG.timing.letterDelay,
         iter := some 7, call := Call.turnOff (String.singleton 'E') }] :=
  ⟨(turnOff_three_delays_after_lightUp CONFIG quietDraw "IT IS HERE" 0 7 'E' rfl
      (by decide)).1,
   (turnOff_three_delays_after_lightUp CONFIG quietDraw "IT IS HERE" 0 7 'E' rfl
      (by decide)).2.1⟩

end StrangerThings
